import Mathlib

/-!
# Verification of the sales-analytics pipeline

A shallow embedding of the repository's core: the record parser and
validator/filter (`src/utils/file_handler.py`), the catalog enricher
(`src/utils/api_handler.py`) and the aggregation functions
(`src/utils/data_processor.py`).

Modelling conventions:
* Python `float` values are modelled as exact rationals (`ℚ`); Python's
  `round(x, 2)` (round-half-to-even) is modelled exactly on `ℚ`.
* A Python dict holding a transaction is modelled as a `Transaction`
  structure whose fields are `Option`-valued: `none` models an absent key.
* Python strings are Lean `String`s; the handful of string methods the
  source uses (`split`, `strip`, `replace`, `startswith`) are given
  explicit structural definitions below so that everything evaluates.
* `int(s)` / `float(s)` are modelled for the decimal forms the data format
  uses (optional sign, digits, decimal point, exponent); exotic Python
  numeral forms (underscores, hex, inf/nan) are outside the data format
  and not modelled.
-/

/-! ## Python string primitives -/

/-- `s.split(sep)` on a list of characters, single-character separator:
splitting never drops empty pieces, and the empty string yields `[[]]`. -/
def splitChars (sep : Char) : List Char → List (List Char)
  | [] => [[]]
  | c :: cs =>
    match splitChars sep cs with
    | [] => [[c]]
    | g :: gs => if c = sep then [] :: g :: gs else (c :: g) :: gs

/-- Python `line.split(sep)` for a one-character separator. -/
def pySplit (sep : Char) (s : String) : List String :=
  (splitChars sep s.data).map String.mk

/-- Python `s.strip()`: drop whitespace from both ends. -/
def pyStrip (s : String) : String :=
  String.mk (((s.data.dropWhile Char.isWhitespace).reverse.dropWhile
    Char.isWhitespace).reverse)

/-- Python `s.replace(old, new)` for one-character arguments. -/
def replaceChar (old new : Char) (s : String) : String :=
  String.mk (s.data.map fun c => if c = old then new else c)

/-- Python `s.replace(old, '')` for a one-character `old`. -/
def removeChar (old : Char) (s : String) : String :=
  String.mk (s.data.filter fun c => c ≠ old)

/-- Python `s.startswith(c)` for a one-character argument. -/
def pyStartsWith (c : Char) (s : String) : Bool :=
  match s.data with
  | [] => false
  | c0 :: _ => c0 = c

/-- Lexicographic comparison of character lists by code point, the order
Python uses to compare strings. -/
def lexLe : List Char → List Char → Bool
  | [], _ => true
  | _ :: _, [] => false
  | a :: as, b :: bs =>
    if a < b then true else if b < a then false else lexLe as bs

/-- Python `a <= b` on strings: lexicographic by code point. -/
def pyStrLe (a b : String) : Bool := lexLe a.data b.data

/-- The value of a string of decimal digits, most significant first. -/
def digitsVal (cs : List Char) : ℕ :=
  cs.foldl (fun n c => 10 * n + (c.toNat - 48)) 0

/-- Python `int(s)` on decimal strings: surrounding whitespace, an optional
sign, then a non-empty digit run; anything else raises `ValueError`
(modelled as `none`). -/
def pyInt (s : String) : Option ℤ :=
  match (pyStrip s).data with
  | [] => none
  | '+' :: cs =>
    if (!cs.isEmpty) && cs.all Char.isDigit then some (digitsVal cs) else none
  | '-' :: cs =>
    if (!cs.isEmpty) && cs.all Char.isDigit then some (-(digitsVal cs : ℤ)) else none
  | cs =>
    if cs.all Char.isDigit then some (digitsVal cs) else none

/-- The exponent's tail after `e`/`E`: optional sign then digits. -/
def expSign : List Char → Option ℤ
  | '+' :: cs =>
    if (!cs.isEmpty) && cs.all Char.isDigit then some (digitsVal cs) else none
  | '-' :: cs =>
    if (!cs.isEmpty) && cs.all Char.isDigit then some (-(digitsVal cs : ℤ)) else none
  | cs =>
    if (!cs.isEmpty) && cs.all Char.isDigit then some (digitsVal cs) else none

/-- The exponent part of a float literal: empty, or `e`/`E` then a signed
digit run. -/
def expPart : List Char → Option ℤ
  | [] => some 0
  | c :: cs => if c = 'e' ∨ c = 'E' then expSign cs else none

/-- The unsigned body of a Python float literal:
`digits [. digits] [exp]` or `. digits [exp]`, valued as an exact rational. -/
def pyFloatCore (cs : List Char) : Option ℚ :=
  let ip := cs.takeWhile Char.isDigit
  let rest := cs.dropWhile Char.isDigit
  match rest with
  | '.' :: r2 =>
    let fp := r2.takeWhile Char.isDigit
    let rest2 := r2.dropWhile Char.isDigit
    if ip.isEmpty && fp.isEmpty then none
    else
      match expPart rest2 with
      | some e =>
        some (((digitsVal ip : ℚ) + (digitsVal fp : ℚ) / ((10 : ℚ) ^ fp.length))
          * (10 : ℚ) ^ (e : ℤ))
      | none => none
  | _ =>
    if ip.isEmpty then none
    else
      match expPart rest with
      | some e => some ((digitsVal ip : ℚ) * (10 : ℚ) ^ (e : ℤ))
      | none => none

/-- Python `float(s)` on finite decimal literals, valued exactly in `ℚ`. -/
def pyFloat (s : String) : Option ℚ :=
  match (pyStrip s).data with
  | [] => none
  | '+' :: cs => pyFloatCore cs
  | '-' :: cs => (pyFloatCore cs).map (fun q => -q)
  | cs => pyFloatCore cs

/-! ## Python rounding -/

/-- `⌊x⌋` computed directly (numerator floor-divided by denominator), so
that concrete rounding evaluates inside the kernel. -/
def ratFloorZ (x : ℚ) : ℤ := Int.fdiv x.num x.den

/-- Python `round(x)`: nearest integer, ties to even, modelled on `ℚ`
through the floor and the fractional part `x - ⌊x⌋ ∈ [0, 1)`. -/
def pyRoundInt (x : ℚ) : ℤ :=
  let f := ratFloorZ x
  let r := x - (f : ℚ)
  if r = 1 / 2 then (if f % 2 = 0 then f else f + 1)
  else if r < 1 / 2 then f else f + 1

/-- Python `round(x, 2)` on an exact rational. -/
def pyRound2 (x : ℚ) : ℚ := (pyRoundInt (x * 100) : ℚ) / 100

/-! ## The data model -/

/-- A transaction dict as the pipeline passes it around: each field is
`none` when the corresponding key is absent.  `Quantity` is a Python int,
`UnitPrice` and the derived `Amount` are Python floats (exact `ℚ` here);
`Amount` is only ever written by `validate_and_filter`. -/
structure Transaction where
  TransactionID : Option String
  Date : Option String
  ProductID : Option String
  ProductName : Option String
  Quantity : Option ℤ
  UnitPrice : Option ℚ
  CustomerID : Option String
  Region : Option String
  Amount : Option ℚ
deriving DecidableEq

instance : Inhabited Transaction :=
  ⟨⟨none, none, none, none, none, none, none, none, none⟩⟩

/-- Rule 1 for one string field: the key is present and
`str(value).strip()` is non-empty. -/
def presentNonEmpty (o : Option String) : Bool :=
  match o with
  | none => false
  | some s => !(pyStrip s).isEmpty

/-- Rule 1 of `validate_and_filter`: every required field present and
non-empty after string coercion.  For the numeric fields `Quantity` and
`UnitPrice`, `str()` of an int or float is never whitespace, so presence of
the key is exactly what the Python check tests. -/
def requiredFieldsOk (t : Transaction) : Bool :=
  presentNonEmpty t.TransactionID && presentNonEmpty t.Date &&
  presentNonEmpty t.ProductID && presentNonEmpty t.ProductName &&
  t.Quantity.isSome && t.UnitPrice.isSome &&
  presentNonEmpty t.CustomerID && presentNonEmpty t.Region

/-- The six validation rules of `validate_and_filter` (file_handler.py,
lines 314–349): missing keys read through `.get` defaults exactly as the
source does. -/
def isValidTransaction (t : Transaction) : Bool :=
  requiredFieldsOk t &&
  decide (0 < t.Quantity.getD 0) &&
  decide (0 < t.UnitPrice.getD 0) &&
  pyStartsWith 'T' (t.TransactionID.getD "") &&
  pyStartsWith 'P' (t.ProductID.getD "") &&
  pyStartsWith 'C' (t.CustomerID.getD "")

/-- `trans['Amount'] = trans['Quantity'] * trans['UnitPrice']`
(file_handler.py line 366).  Run only on admitted records, where both keys
are present, so the `getD` defaults are never read. -/
def setAmount (t : Transaction) : Transaction :=
  { t with Amount := some ((t.Quantity.getD 0 : ℚ) * t.UnitPrice.getD 0) }

/-- The summary dict `validate_and_filter` returns third. -/
structure FilterSummary where
  total_input : ℕ
  invalid : ℕ
  filtered_by_region : ℕ
  filtered_by_amount : ℕ
  final_count : ℕ
deriving DecidableEq

/-- Python truthiness of the `region` argument: `if region:` is false for
`None` and for the empty string. -/
def regionTruthy : Option String → Bool
  | none => false
  | some s => !s.isEmpty

/-- `validate_and_filter` (file_handler.py lines 263–435): validate each
record against the six rules, count rejects, write `Amount` on the admitted
records, then filter by region and by amount range, tracking removal
counts. -/
def validate_and_filter (transactions : List Transaction) (region : Option String)
    (min_amount max_amount : Option ℚ) : List Transaction × ℕ × FilterSummary :=
  let valid_transactions := transactions.filter isValidTransaction
  let invalid_count := transactions.countP (fun t => !isValidTransaction t)
  let withAmount := valid_transactions.map setAmount
  let afterRegion :=
    if regionTruthy region then
      withAmount.filter (fun t => decide (t.Region.getD "" = region.getD ""))
    else withAmount
  let filtered_by_region :=
    if regionTruthy region then withAmount.length - afterRegion.length else 0
  let afterMin :=
    match min_amount with
    | some m => afterRegion.filter (fun t => decide (m ≤ t.Amount.getD 0))
    | none => afterRegion
  let afterMax :=
    match max_amount with
    | some m => afterMin.filter (fun t => decide (t.Amount.getD 0 ≤ m))
    | none => afterMin
  let filtered_by_amount :=
    if min_amount.isSome || max_amount.isSome then
      afterRegion.length - afterMax.length
    else 0
  (afterMax, invalid_count,
    { total_input := transactions.length
      invalid := invalid_count
      filtered_by_region := filtered_by_region
      filtered_by_amount := filtered_by_amount
      final_count := afterMax.length })

/-! ## The record parser -/

/-- The body of the `parse_transactions` loop once the line is split:
exactly 8 fields or the line is skipped; each field stripped; commas
removed from the numeric fields before conversion; commas in the product
name replaced by spaces (file_handler.py lines 196–254). -/
def parseFields : List String → Option Transaction
  | [f0, f1, f2, f3, f4, f5, f6, f7] =>
    match pyInt (removeChar ',' (pyStrip f4)) with
    | none => none
    | some quantity =>
      match pyFloat (removeChar ',' (pyStrip f5)) with
      | none => none
      | some unit_price =>
        some { TransactionID := some (pyStrip f0)
               Date := some (pyStrip f1)
               ProductID := some (pyStrip f2)
               ProductName := some (replaceChar ',' ' ' (pyStrip f3))
               Quantity := some quantity
               UnitPrice := some unit_price
               CustomerID := some (pyStrip f6)
               Region := some (pyStrip f7)
               Amount := none }
  | _ => none

/-- One iteration of `parse_transactions`. -/
def parseLine (line : String) : Option Transaction :=
  parseFields (pySplit '|' line)

/-- `parse_transactions` (file_handler.py lines 158–260): every line is
processed independently; a line that fails is skipped and counted, the
batch continues.  Returns the parsed list and the skipped count. -/
def parse_transactions (raw_lines : List String) : List Transaction × ℕ :=
  (raw_lines.filterMap parseLine,
   raw_lines.countP (fun l => (parseLine l).isNone))

/-! ## The enricher -/

/-- One catalog entry as `create_product_mapping` stores it: the values come
from `.get` calls on the API response, so each may be `None`. -/
structure ProductInfo where
  title : Option String
  category : Option String
  brand : Option String
  rating : Option ℚ
deriving DecidableEq

/-- An enriched transaction: the copied original dict plus the four API
fields `enrich_sales_data` adds. -/
structure EnrichedTransaction where
  base : Transaction
  API_Category : Option String
  API_Brand : Option String
  API_Rating : Option ℚ
  API_Match : Bool
deriving DecidableEq

/-- `re.search(r'\d+', s)`: the first maximal run of decimal digits in `s`,
or `none` when `s` has no digit. -/
def firstDigitRun (s : String) : Option (List Char) :=
  match s.data.dropWhile (fun c => !c.isDigit) with
  | [] => none
  | c :: cs => some (c :: cs.takeWhile Char.isDigit)

/-- The integer `enrich_sales_data` extracts from `ProductID`
(`int(re.search(r'\d+', pid).group())`), when a digit run exists. -/
def extractedId (t : Transaction) : Option ℕ :=
  (firstDigitRun (t.ProductID.getD "")).map digitsVal

/-- The all-`None`, unmatched enrichment of a transaction
(api_handler.py lines 217–231). -/
def noMatchFields (t : Transaction) : EnrichedTransaction :=
  { base := t, API_Category := none, API_Brand := none,
    API_Rating := none, API_Match := false }

/-- The per-transaction body of the `enrich_sales_data` loop
(api_handler.py lines 191–244).  The product mapping, a Python dict with
integer keys, is an association list looked up by key. -/
def enrichOne (product_mapping : List (ℕ × ProductInfo)) (t : Transaction) :
    EnrichedTransaction :=
  match firstDigitRun (t.ProductID.getD "") with
  | some ds =>
    match List.lookup (digitsVal ds) product_mapping with
    | some info =>
      { base := t, API_Category := info.category, API_Brand := info.brand,
        API_Rating := info.rating, API_Match := true }
    | none => noMatchFields t
  | none => noMatchFields t

/-- `enrich_sales_data` (api_handler.py lines 139–254): an empty input
returns `[]` at once; otherwise each transaction is enriched independently
and appended, so the output is a map over the input. -/
def enrich_sales_data (transactions : List Transaction)
    (product_mapping : List (ℕ × ProductInfo)) : List EnrichedTransaction :=
  if transactions.isEmpty then []
  else transactions.map (enrichOne product_mapping)

/-! ## The aggregator

The `defaultdict` accumulation loops of data_processor.py add each
transaction's contribution to its key's running sums, visiting keys in
first-occurrence order.  Because per-key contributions arrive in list
order and rational addition is associative, each key's accumulated value
equals the fold over the sub-list of transactions with that key; the
embeddings below compute group values that way, over the keys in
first-seen order, and then model Python's stable `sorted`/`list.sort` by a
stable insertion sort. -/

/-- The keys of a dict built by insertion: first occurrences, in order.
`seen` accumulates the keys already inserted. -/
def firstSeenAux {κ : Type} [DecidableEq κ] (seen : List κ) : List κ → List κ
  | [] => []
  | k :: rest =>
    if k ∈ seen then firstSeenAux seen rest
    else k :: firstSeenAux (k :: seen) rest

/-- First occurrences of a list's elements, in first-seen order. -/
def firstSeen {κ : Type} [DecidableEq κ] (l : List κ) : List κ :=
  firstSeenAux [] l

/-- Stable insertion: place `x` before the first element it may precede.
With `le x y` meaning "`x` may come before `y`" (non-strict on the sort
key), folding from the right models Python's stable sorts exactly,
including `reverse=True` tie behavior. -/
def pyInsert {α : Type} (le : α → α → Bool) (x : α) : List α → List α
  | [] => [x]
  | y :: ys => if le x y then x :: y :: ys else y :: pyInsert le x ys

/-- A stable sort modelling Python `sorted(l, key=...)` /
`l.sort(key=..., reverse=...)`. -/
def pySort {α : Type} (le : α → α → Bool) (l : List α) : List α :=
  l.foldr (pyInsert le) []

/-- `trans.get('Quantity', 0)` as the aggregator reads it. -/
def txQuantity (t : Transaction) : ℤ := t.Quantity.getD 0

/-- `trans.get('UnitPrice', 0.0)` as the aggregator reads it. -/
def txPrice (t : Transaction) : ℚ := t.UnitPrice.getD 0

/-- One transaction's revenue contribution, `quantity * unit_price`. -/
def txSales (t : Transaction) : ℚ := (txQuantity t : ℚ) * txPrice t

/-- `calculate_total_revenue` (data_processor.py lines 8–25): the full
precision running sum, rounded to 2 decimals on return. -/
def calculate_total_revenue (transactions : List Transaction) : ℚ :=
  if transactions.isEmpty then 0
  else pyRound2 ((transactions.map txSales).sum)

/-- `trans.get('Region', 'Unknown')`, the region grouping key. -/
def keyRegion (t : Transaction) : String := t.Region.getD "Unknown"

/-- `trans.get('ProductName', 'Unknown')`, the product grouping key. -/
def keyProduct (t : Transaction) : String := t.ProductName.getD "Unknown"

/-- `trans.get('Date', 'Unknown')`, the date grouping key. -/
def keyDate (t : Transaction) : String := t.Date.getD "Unknown"

/-- `trans.get('CustomerID', 'Unknown')`, the customer key. -/
def keyCustomer (t : Transaction) : String := t.CustomerID.getD "Unknown"

/-- A group's full-precision revenue sum under a grouping key. -/
def groupSales (key : Transaction → String) (ts : List Transaction)
    (k : String) : ℚ :=
  ((ts.filter (fun t => decide (key t = k))).map txSales).sum

/-- A group's summed quantity under the product grouping key. -/
def groupQty (ts : List Transaction) (p : String) : ℤ :=
  ((ts.filter (fun t => decide (keyProduct t = p))).map txQuantity).sum

/-- One value of the `region_wise_sales` result dict. -/
structure RegionStat where
  total_sales : ℚ
  transaction_count : ℕ
  percentage : ℚ
deriving DecidableEq

/-- The stats `region_wise_sales` stores for one region (data_processor.py
lines 68–76): the stored sales and percentage are rounded to 2 decimals;
the percentage divides the full-precision group sum by
`calculate_total_revenue` — which is itself already rounded. -/
def regionStatFor (ts : List Transaction) (r : String) : RegionStat :=
  let total_revenue := calculate_total_revenue ts
  let gsum := groupSales keyRegion ts r
  { total_sales := pyRound2 gsum
    transaction_count := (ts.filter (fun t => decide (keyRegion t = r))).length
    percentage :=
      pyRound2 (if 0 < total_revenue then gsum / total_revenue * 100 else 0) }

/-- `region_wise_sales` (data_processor.py lines 28–81): group by region in
first-seen order, then sort by `total_sales` descending with Python's
stable `sorted`. -/
def region_wise_sales (transactions : List Transaction) :
    List (String × RegionStat) :=
  if transactions.isEmpty then []
  else
    pySort (fun a b => decide (b.2.total_sales ≤ a.2.total_sales))
      ((firstSeen (transactions.map keyRegion)).map
        (fun r => (r, regionStatFor transactions r)))

/-- `top_selling_products` (data_processor.py lines 84–128): group by
product name in first-seen order into `(name, quantity, revenue)` tuples
(revenue rounded to 2 decimals), stable-sort by quantity descending, take
the first `n`. -/
def top_selling_products (transactions : List Transaction) (n : ℕ) :
    List (String × ℤ × ℚ) :=
  if transactions.isEmpty then []
  else
    (pySort (fun a b => decide (b.2.1 ≤ a.2.1))
      ((firstSeen (transactions.map keyProduct)).map
        (fun p => (p, groupQty transactions p,
          pyRound2 (groupSales keyProduct transactions p))))).take n

/-- One value of the `daily_sales_trend` result dict. -/
structure DayStat where
  revenue : ℚ
  transaction_count : ℕ
  unique_customers : ℕ
deriving DecidableEq

/-- The stats `daily_sales_trend` stores for one date (data_processor.py
lines 239–246): rounded revenue, count, and the number of distinct
customer IDs seen that day. -/
def dayStatFor (ts : List Transaction) (d : String) : DayStat :=
  let g := ts.filter (fun t => decide (keyDate t = d))
  { revenue := pyRound2 ((g.map txSales).sum)
    transaction_count := g.length
    unique_customers := (g.map keyCustomer).dedup.length }

/-- `daily_sales_trend` (data_processor.py lines 194–251): group by date in
first-seen order, then return the mapping sorted by date ascending
(`dict(sorted(result.items()))`; keys are distinct, so only the string key
is ever compared). -/
def daily_sales_trend (transactions : List Transaction) :
    List (String × DayStat) :=
  if transactions.isEmpty then []
  else
    pySort (fun a b => pyStrLe a.1 b.1)
      ((firstSeen (transactions.map keyDate)).map
        (fun d => (d, dayStatFor transactions d)))

/-- One comparison step of Python `max(l, key=f)`: the current best is
replaced only on strict increase, so the first maximum is kept. -/
def pyMaxStep {α β : Type} [LinearOrder β] (f : α → β) (best y : α) : α :=
  if f best < f y then y else best

/-- Python `max(l, key=f)`: the first element attaining the maximum, found
by a left fold over the iteration order. -/
def pyMaxBy {α β : Type} [LinearOrder β] (f : α → β) : List α → Option α
  | [] => none
  | x :: xs => some (xs.foldl (pyMaxStep f) x)

/-- `find_peak_sales_day` (data_processor.py lines 254–278):
`max(daily_trend.items(), key=revenue)` over the date-ascending trend. -/
def find_peak_sales_day (transactions : List Transaction) :
    Option String × ℚ × ℕ :=
  if transactions.isEmpty then (none, 0, 0)
  else
    match pyMaxBy (fun e => e.2.revenue) (daily_sales_trend transactions) with
    | none => (none, 0, 0)
    | some e => (some e.1, e.2.revenue, e.2.transaction_count)

/-! ## A heap model of `validate_and_filter`

The Python function receives a list of dict objects and mutates the
admitted dicts in place (`trans['Amount'] = ...`), and the list it returns
holds those same objects.  To state that, the heap of dicts is a store
`σ : List Transaction` and the caller's list is a list of store indices;
the function returns the surviving indices, the invalid count, and the
updated store. -/

/-- Dereference a store index (a dict object reference). -/
def readS (σ : List Transaction) (i : ℕ) : Transaction :=
  σ[i]?.getD default

/-- The in-place `Amount` pass (file_handler.py lines 365–366): each
admitted dict is updated in the store. -/
def amountPass (σ : List Transaction) (l : List ℕ) : List Transaction :=
  l.foldl (fun s i => s.set i (setAmount (readS s i))) σ

/-- `validate_and_filter` on the heap model: same control flow as
`validate_and_filter`, but the admitted records are store references and
the `Amount` write is a store update. -/
def validate_and_filter_heap (σ : List Transaction) (refs : List ℕ)
    (region : Option String) (min_amount max_amount : Option ℚ) :
    List ℕ × ℕ × List Transaction :=
  let validRefs := refs.filter (fun i => isValidTransaction (readS σ i))
  let invalid_count := refs.countP (fun i => !isValidTransaction (readS σ i))
  let σ2 := amountPass σ validRefs
  let afterRegion :=
    if regionTruthy region then
      validRefs.filter (fun i => decide ((readS σ2 i).Region.getD "" = region.getD ""))
    else validRefs
  let afterMin :=
    match min_amount with
    | some m => afterRegion.filter (fun i => decide (m ≤ (readS σ2 i).Amount.getD 0))
    | none => afterRegion
  let afterMax :=
    match max_amount with
    | some m => afterMin.filter (fun i => decide ((readS σ2 i).Amount.getD 0 ≤ m))
    | none => afterMin
  (afterMax, invalid_count, σ2)

/-! ## Concrete sample data used to instantiate the theorems -/

/-- A transaction dict with all eight parsed keys present (the shape
`parse_transactions` produces). -/
def mkTransaction (tid date pid pname : String) (q : ℤ) (p : ℚ)
    (cid rg : String) : Transaction :=
  { TransactionID := some tid, Date := some date, ProductID := some pid,
    ProductName := some pname, Quantity := some q, UnitPrice := some p,
    CustomerID := some cid, Region := some rg, Amount := none }

/-- Two valid records in two regions, for exercising the region filter. -/
def sampleNorth : Transaction :=
  mkTransaction "T001" "2024-12-01" "P101" "Laptop" 2 45000 "C001" "North"

/-- See `sampleNorth`. -/
def sampleSouth : Transaction :=
  mkTransaction "T002" "2024-12-02" "P102" "Mouse" 1 500 "C002" "South"

/-- One record whose unit price rounds at the second decimal, exhibiting
the rounded-denominator behaviour of the percentage computation. -/
def sampleThirds : Transaction :=
  mkTransaction "T001" "2024-12-01" "P101" "Laptop" 1 (333 / 1000) "C001" "North"

/-- A record priced 300 in the North region, for the percentage witness. -/
def samplePct300 : Transaction :=
  mkTransaction "T001" "2024-12-01" "P101" "Laptop" 1 300 "C001" "North"

/-- A record priced 100 in the South region, for the percentage witness. -/
def samplePct100 : Transaction :=
  mkTransaction "T002" "2024-12-01" "P102" "Mouse" 1 100 "C002" "South"

/-- Two records on different dates with equal daily revenue, the later
date listed first, for the peak-day tie-break. -/
def sampleDay2 : Transaction :=
  mkTransaction "T001" "2024-12-02" "P101" "Laptop" 1 100 "C001" "North"

/-- See `sampleDay2`. -/
def sampleDay1 : Transaction :=
  mkTransaction "T002" "2024-12-01" "P102" "Mouse" 1 100 "C002" "South"

/-! ## General lemmas about the embedding's combinators -/

theorem mem_pyInsert {α : Type} (le : α → α → Bool) (x a : α) (l : List α) :
    a ∈ pyInsert le x l ↔ a = x ∨ a ∈ l := by
  induction l with
  | nil => simp [pyInsert]
  | cons y ys ih =>
    simp only [pyInsert]
    split
    · simp [List.mem_cons]
    · simp only [List.mem_cons, ih]
      tauto

theorem pyInsert_perm {α : Type} (le : α → α → Bool) (x : α) (l : List α) :
    List.Perm (pyInsert le x l) (x :: l) := by
  induction l with
  | nil => simp [pyInsert]
  | cons y ys ih =>
    simp only [pyInsert]
    split
    · exact List.Perm.refl _
    · exact (ih.cons y).trans (List.Perm.swap x y ys)

theorem pySort_perm {α : Type} (le : α → α → Bool) (l : List α) :
    List.Perm (pySort le l) l := by
  induction l with
  | nil => exact List.Perm.refl _
  | cons x xs ih =>
    have h : pySort le (x :: xs) = pyInsert le x (pySort le xs) := rfl
    rw [h]
    exact (pyInsert_perm le x (pySort le xs)).trans (ih.cons x)

theorem mem_pySort {α : Type} (le : α → α → Bool) (l : List α) (a : α) :
    a ∈ pySort le l ↔ a ∈ l :=
  (pySort_perm le l).mem_iff

theorem pairwise_pyInsert {α : Type} (le : α → α → Bool)
    (htr : ∀ a b c, le a b = true → le b c = true → le a c = true)
    (htot : ∀ a b, le a b = true ∨ le b a = true) (x : α) (l : List α)
    (h : l.Pairwise (fun a b => le a b = true)) :
    (pyInsert le x l).Pairwise (fun a b => le a b = true) := by
  induction l with
  | nil => simp [pyInsert]
  | cons y ys ih =>
    have hy := (List.pairwise_cons.mp h).1
    have hys := (List.pairwise_cons.mp h).2
    simp only [pyInsert]
    split
    · rename_i hxy
      refine List.pairwise_cons.mpr ⟨?_, h⟩
      intro z hz
      rcases List.mem_cons.mp hz with rfl | hz
      · exact hxy
      · exact htr x y z hxy (hy z hz)
    · rename_i hxy
      have hyx : le y x = true := by
        rcases htot x y with hh | hh
        · exact absurd hh hxy
        · exact hh
      refine List.pairwise_cons.mpr ⟨?_, ih hys⟩
      intro z hz
      rcases (mem_pyInsert le x z ys).mp hz with rfl | hz
      · exact hyx
      · exact hy z hz

theorem pairwise_pySort {α : Type} (le : α → α → Bool)
    (htr : ∀ a b c, le a b = true → le b c = true → le a c = true)
    (htot : ∀ a b, le a b = true ∨ le b a = true) (l : List α) :
    (pySort le l).Pairwise (fun a b => le a b = true) := by
  induction l with
  | nil => exact List.Pairwise.nil
  | cons x xs ih => exact pairwise_pyInsert le htr htot x (pySort le xs) ih

theorem firstSeenAux_spec {κ : Type} [DecidableEq κ] (l : List κ) :
    ∀ seen : List κ, (firstSeenAux seen l).Nodup ∧
      ∀ k ∈ firstSeenAux seen l, k ∉ seen := by
  induction l with
  | nil => intro seen; simp [firstSeenAux]
  | cons k rest ih =>
    intro seen
    simp only [firstSeenAux]
    split
    · exact ih seen
    · rename_i hks
      obtain ⟨hnd, hout⟩ := ih (k :: seen)
      refine ⟨List.nodup_cons.mpr ⟨?_, hnd⟩, ?_⟩
      · intro hk
        exact (hout k hk) (List.mem_cons_self k seen)
      · intro a ha
        rcases List.mem_cons.mp ha with rfl | ha
        · exact hks
        · intro hs
          exact hout a ha (List.mem_cons_of_mem k hs)

theorem nodup_firstSeen {κ : Type} [DecidableEq κ] (l : List κ) :
    (firstSeen l).Nodup :=
  (firstSeenAux_spec l []).1

theorem countP_self_add_not {α : Type} (p : α → Bool) (l : List α) :
    l.countP p + l.countP (fun a => !p a) = l.length := by
  induction l with
  | nil => simp
  | cons a l ih =>
    cases hpa : p a <;> simp [List.countP_cons, hpa] <;> omega

/-! ## Facts about the validator -/

theorem vf_no_filters (ts : List Transaction) :
    validate_and_filter ts none none none =
      ((ts.filter isValidTransaction).map setAmount,
       ts.countP (fun t => !isValidTransaction t),
       { total_input := ts.length
         invalid := ts.countP (fun t => !isValidTransaction t)
         filtered_by_region := 0
         filtered_by_amount := 0
         final_count := ((ts.filter isValidTransaction).map setAmount).length }) := rfl

theorem isValidTransaction_iff (t : Transaction) :
    isValidTransaction t = true ↔
      (requiredFieldsOk t = true ∧ 0 < t.Quantity.getD 0 ∧ 0 < t.UnitPrice.getD 0 ∧
       pyStartsWith 'T' (t.TransactionID.getD "") = true ∧
       pyStartsWith 'P' (t.ProductID.getD "") = true ∧
       pyStartsWith 'C' (t.CustomerID.getD "") = true) := by
  simp [isValidTransaction, Bool.and_eq_true, and_assoc]

/-- **C1.** A transaction appears in the admitted output of
`validate_and_filter` (no filters requested) exactly when it comes from an
input transaction satisfying all six validation rules — field presence and
non-emptiness, positive quantity and unit price, and the three identifier
prefixes — with the admitted copy carrying the computed `Amount`; and every
transaction failing at least one rule contributes exactly one to the
invalid count, however many rules it fails. -/
theorem claim_C1 (ts : List Transaction) (t' : Transaction) :
    (t' ∈ (validate_and_filter ts none none none).1 ↔
      ∃ t, t ∈ ts ∧
        (requiredFieldsOk t = true ∧ 0 < t.Quantity.getD 0 ∧
         0 < t.UnitPrice.getD 0 ∧
         pyStartsWith 'T' (t.TransactionID.getD "") = true ∧
         pyStartsWith 'P' (t.ProductID.getD "") = true ∧
         pyStartsWith 'C' (t.CustomerID.getD "") = true) ∧
        t' = setAmount t) ∧
    (validate_and_filter ts none none none).2.1 =
      ts.countP (fun t => !isValidTransaction t) := by
  rw [vf_no_filters]
  refine ⟨?_, rfl⟩
  simp only [List.mem_map, List.mem_filter]
  constructor
  · rintro ⟨t, ⟨hmem, hval⟩, rfl⟩
    exact ⟨t, hmem, (isValidTransaction_iff t).mp hval, rfl⟩
  · rintro ⟨t, hmem, hrules, rfl⟩
    exact ⟨t, ⟨hmem, (isValidTransaction_iff t).mpr hrules⟩, rfl⟩

/-! ## Facts about the enricher -/

/-- **C2.** Enrichment never drops or duplicates a record: the output list
has exactly the input's length, for every transaction list and every
product mapping. -/
theorem claim_C2 (ts : List Transaction) (m : List (ℕ × ProductInfo)) :
    (enrich_sales_data ts m).length = ts.length := by
  by_cases h : ts.isEmpty
  · rw [List.isEmpty_iff] at h
    subst h
    rfl
  · simp [enrich_sales_data, h]

/-- **C3.** An enriched record matches exactly when the first maximal
digit run of `ProductID` exists and its value is a key of the mapping; in
that case the three API fields are copied from the mapping entry, and in
every other case (no digit run, or key absent — in particular when the
mapping is empty) they are `none` and `API_Match` is `false`.  All original
fields are kept, and `enrich_sales_data` applies this entry-wise. -/
theorem claim_C3 (m : List (ℕ × ProductInfo)) (t : Transaction)
    (ts : List Transaction) (i : ℕ) :
    ((enrichOne m t).API_Match =
      ((extractedId t).bind (fun k => List.lookup k m)).isSome) ∧
    ((enrichOne m t).API_Category =
      ((extractedId t).bind (fun k => List.lookup k m)).bind ProductInfo.category) ∧
    ((enrichOne m t).API_Brand =
      ((extractedId t).bind (fun k => List.lookup k m)).bind ProductInfo.brand) ∧
    ((enrichOne m t).API_Rating =
      ((extractedId t).bind (fun k => List.lookup k m)).bind ProductInfo.rating) ∧
    ((enrichOne m t).base = t) ∧
    ((enrich_sales_data ts m)[i]? = ts[i]?.map (enrichOne m)) := by
  refine ⟨?_, ?_, ?_, ?_, ?_, ?_⟩
  case _ =>
    unfold enrichOne extractedId noMatchFields
    cases hr : firstDigitRun (t.ProductID.getD "") with
    | none => simp
    | some ds =>
      cases hl : List.lookup (digitsVal ds) m with
      | none => simp [hl]
      | some info => simp [hl]
  case _ =>
    unfold enrichOne extractedId noMatchFields
    cases hr : firstDigitRun (t.ProductID.getD "") with
    | none => simp
    | some ds =>
      cases hl : List.lookup (digitsVal ds) m with
      | none => simp [hl]
      | some info => simp [hl]
  case _ =>
    unfold enrichOne extractedId noMatchFields
    cases hr : firstDigitRun (t.ProductID.getD "") with
    | none => simp
    | some ds =>
      cases hl : List.lookup (digitsVal ds) m with
      | none => simp [hl]
      | some info => simp [hl]
  case _ =>
    unfold enrichOne extractedId noMatchFields
    cases hr : firstDigitRun (t.ProductID.getD "") with
    | none => simp
    | some ds =>
      cases hl : List.lookup (digitsVal ds) m with
      | none => simp [hl]
      | some info => simp [hl]
  case _ =>
    unfold enrichOne noMatchFields
    cases hr : firstDigitRun (t.ProductID.getD "") with
    | none => simp
    | some ds =>
      cases hl : List.lookup (digitsVal ds) m with
      | none => simp [hl]
      | some info => simp [hl]
  case _ =>
    by_cases h : ts.isEmpty
    · rw [List.isEmpty_iff] at h
      subst h
      simp [enrich_sales_data]
    · simp [enrich_sales_data, h, List.getElem?_map]

theorem sub_length_filter {α : Type} (l : List α) (p : α → Bool) :
    l.length - (l.filter p).length = l.countP (fun a => !p a) := by
  have h := countP_self_add_not p l
  rw [List.countP_eq_length_filter] at h
  omega

theorem regionTruthy_some {r : String} (hr : r ≠ "") :
    regionTruthy (some r) = true := by
  have he : r.isEmpty = false := by
    cases h : r.isEmpty with
    | false => rfl
    | true => exact absurd ((String.isEmpty_iff r).mp h) hr
  simp [regionTruthy, he]

/-- **C4.** With a non-empty region filter, the returned records are exactly
the admitted ones whose `Region` equals the requested region (string
equality) and whose amount lies within the requested bounds;
`filtered_by_region` counts the admitted records the region filter removed,
`filtered_by_amount` counts the records the min- and then the max-amount
filters removed from the set surviving the region filter, and
`final_count` is the length of the returned list. -/
theorem claim_C4 (ts : List Transaction) (r : String) (mn mx : Option ℚ)
    (hr : r ≠ "") :
    ((validate_and_filter ts (some r) mn mx).1 =
      ((ts.filter isValidTransaction).map setAmount).filter
        (fun t => decide (t.Region.getD "" = r) &&
          (mn.all (fun m => decide (m ≤ t.Amount.getD 0)) &&
           mx.all (fun m => decide (t.Amount.getD 0 ≤ m))))) ∧
    ((validate_and_filter ts (some r) mn mx).2.2.filtered_by_region =
      ((ts.filter isValidTransaction).map setAmount).countP
        (fun t => !decide (t.Region.getD "" = r))) ∧
    ((validate_and_filter ts (some r) mn mx).2.2.filtered_by_amount =
      (((ts.filter isValidTransaction).map setAmount).filter
        (fun t => decide (t.Region.getD "" = r))).countP
        (fun t => !(mn.all (fun m => decide (m ≤ t.Amount.getD 0)) &&
           mx.all (fun m => decide (t.Amount.getD 0 ≤ m))))) ∧
    ((validate_and_filter ts (some r) mn mx).2.2.final_count =
      (validate_and_filter ts (some r) mn mx).1.length) := by
  have htr := regionTruthy_some hr
  refine ⟨?_, ?_, ?_, rfl⟩
  · cases mn with
    | none =>
      cases mx with
      | none =>
        simp only [validate_and_filter, htr, if_true, Option.getD_some,
          Option.all_none, Bool.and_true]
      | some M =>
        simp only [validate_and_filter, htr, if_true, Option.getD_some,
          Option.all_none, Option.all_some, Bool.true_and]
        rw [List.filter_filter]
        refine List.filter_congr ?_
        intro a _
        exact Bool.and_comm _ _
    | some m =>
      cases mx with
      | none =>
        simp only [validate_and_filter, htr, if_true, Option.getD_some,
          Option.all_none, Option.all_some, Bool.and_true]
        rw [List.filter_filter]
        refine List.filter_congr ?_
        intro a _
        exact Bool.and_comm _ _
      | some M =>
        simp only [validate_and_filter, htr, if_true, Option.getD_some,
          Option.all_some]
        rw [List.filter_filter, List.filter_filter]
        refine List.filter_congr ?_
        intro a _
        cases hk : decide (a.Region.getD "" = r) <;>
          cases h1 : decide (m ≤ a.Amount.getD 0) <;>
            cases h2 : decide (a.Amount.getD 0 ≤ M) <;> rfl
  · simp only [validate_and_filter, htr, if_true, Option.getD_some]
    exact sub_length_filter _ _
  · cases mn with
    | none =>
      cases mx with
      | none =>
        simp only [validate_and_filter, htr, if_true, Option.getD_some,
          Option.all_none, Bool.and_true, Option.isSome_none, Bool.or_self,
          if_false]
        simp
      | some M =>
        simp only [validate_and_filter, htr, if_true, Option.getD_some,
          Option.all_none, Option.all_some, Bool.true_and, Option.isSome_none,
          Option.isSome_some, Bool.or_true, if_true]
        exact sub_length_filter _ _
    | some m =>
      cases mx with
      | none =>
        simp only [validate_and_filter, htr, if_true, Option.getD_some,
          Option.all_none, Option.all_some, Bool.and_true, Option.isSome_none,
          Option.isSome_some, Bool.true_or, if_true]
        exact sub_length_filter _ _
      | some M =>
        simp only [validate_and_filter, htr, if_true, Option.getD_some,
          Option.all_some, Option.isSome_some, Bool.or_self, if_true]
        rw [List.filter_filter, sub_length_filter]
        refine List.countP_congr ?_
        intro a _
        cases h1 : decide (m ≤ a.Amount.getD 0) <;>
          cases h2 : decide (a.Amount.getD 0 ≤ M) <;> rfl

/-- Witness for **C4** at a concrete input: a two-region set filtered to
`"North"` with no amount bounds. -/
theorem claim_C4_witness :
    ("North" : String) ≠ "" ∧
    (((validate_and_filter [sampleNorth, sampleSouth] (some "North") none none).1 =
      (([sampleNorth, sampleSouth].filter isValidTransaction).map setAmount).filter
        (fun t => decide (t.Region.getD "" = "North") &&
          ((none : Option ℚ).all (fun m => decide (m ≤ t.Amount.getD 0)) &&
           (none : Option ℚ).all (fun m => decide (t.Amount.getD 0 ≤ m))))) ∧
    ((validate_and_filter [sampleNorth, sampleSouth] (some "North") none none).2.2.filtered_by_region =
      (([sampleNorth, sampleSouth].filter isValidTransaction).map setAmount).countP
        (fun t => !decide (t.Region.getD "" = "North"))) ∧
    ((validate_and_filter [sampleNorth, sampleSouth] (some "North") none none).2.2.filtered_by_amount =
      ((([sampleNorth, sampleSouth].filter isValidTransaction).map setAmount).filter
        (fun t => decide (t.Region.getD "" = "North"))).countP
        (fun t => !((none : Option ℚ).all (fun m => decide (m ≤ t.Amount.getD 0)) &&
           (none : Option ℚ).all (fun m => decide (t.Amount.getD 0 ≤ m))))) ∧
    ((validate_and_filter [sampleNorth, sampleSouth] (some "North") none none).2.2.final_count =
      (validate_and_filter [sampleNorth, sampleSouth] (some "North") none none).1.length)) :=
  ⟨by decide, claim_C4 [sampleNorth, sampleSouth] "North" none none (by decide)⟩

/-! ## Facts about the parser -/

theorem parseFields_ne_eight (fs : List String) (h : fs.length ≠ 8) :
    parseFields fs = none := by
  unfold parseFields
  split
  · rename_i f0 f1 f2 f3 f4 f5 f6 f7
    simp at h
  · rfl

unseal Rat.add Rat.mul Rat.inv Rat.sub in
/-- **C5.** A raw line that does not split into exactly 8 pipe-separated
fields is skipped — the rest of the batch parses as if the line were
absent, and the skipped count rises by one.  A line that does split into 8
fields has every field stripped, commas removed from the quantity and
unit-price strings before `int`/`float` conversion, and commas in the
product name replaced by spaces.  In particular the example line
`"T001|2024-12-01|P101|Laptop|2|45,000|C001|North"` parses to quantity 2
and unit price 45000, is admitted, and carries amount 90000. -/
theorem claim_C5 :
    (∀ (pre post : List String) (line : String),
      (pySplit '|' line).length ≠ 8 →
        (parse_transactions (pre ++ line :: post)).1 =
          (parse_transactions (pre ++ post)).1 ∧
        (parse_transactions (pre ++ line :: post)).2 =
          (parse_transactions (pre ++ post)).2 + 1) ∧
    (∀ (line : String) (f0 f1 f2 f3 f4 f5 f6 f7 : String),
      pySplit '|' line = [f0, f1, f2, f3, f4, f5, f6, f7] →
        parseLine line =
          (match pyInt (removeChar ',' (pyStrip f4)),
              pyFloat (removeChar ',' (pyStrip f5)) with
          | some quantity, some unit_price =>
            some { TransactionID := some (pyStrip f0)
                   Date := some (pyStrip f1)
                   ProductID := some (pyStrip f2)
                   ProductName := some (replaceChar ',' ' ' (pyStrip f3))
                   Quantity := some quantity
                   UnitPrice := some unit_price
                   CustomerID := some (pyStrip f6)
                   Region := some (pyStrip f7)
                   Amount := none }
          | _, _ => none)) ∧
    (parseLine "T001|2024-12-01|P101|Laptop|2|45,000|C001|North" =
        some sampleNorth ∧
      sampleNorth.Quantity = some 2 ∧ sampleNorth.UnitPrice = some 45000 ∧
      isValidTransaction sampleNorth = true ∧
      (validate_and_filter [sampleNorth] none none none).1 =
        [setAmount sampleNorth] ∧
      (setAmount sampleNorth).Amount = some 90000) := by
  refine ⟨?_, ?_, ?_⟩
  · intro pre post line h
    have hn : parseLine line = none := parseFields_ne_eight _ h
    constructor
    · simp [parse_transactions, List.filterMap_append, List.filterMap_cons, hn]
    · simp only [parse_transactions, List.countP_append, List.countP_cons, hn]
      simp
      omega
  · intro line f0 f1 f2 f3 f4 f5 f6 f7 heq
    unfold parseLine
    rw [heq]
    cases h4 : pyInt (removeChar ',' (pyStrip f4)) with
    | none => simp [parseFields, h4]
    | some q =>
      cases h5 : pyFloat (removeChar ',' (pyStrip f5)) with
      | none => simp [parseFields, h4, h5]
      | some p => simp [parseFields, h4, h5]
  · refine ⟨by decide, by decide, by decide, by decide, by decide, by decide⟩

/-! ## Idempotence of the validator/filter -/

theorem setAmount_idem (t : Transaction) : setAmount (setAmount t) = setAmount t := rfl

theorem isValid_setAmount (t : Transaction) :
    isValidTransaction (setAmount t) = isValidTransaction t := rfl

theorem map_id_of_mem {α : Type} {f : α → α} {l : List α}
    (h : ∀ a ∈ l, f a = a) : l.map f = l := by
  induction l with
  | nil => rfl
  | cons a l ih =>
    rw [List.map_cons, h a (List.mem_cons_self a l),
      ih (fun b hb => h b (List.mem_cons_of_mem a hb))]

theorem filter_eq_self_of_mem {α : Type} {p : α → Bool} {l : List α}
    (h : ∀ a ∈ l, p a = true) : l.filter p = l :=
  List.filter_eq_self.mpr h

theorem vf_mem_facts (ts : List Transaction) (reg : Option String)
    (mn mx : Option ℚ) (t : Transaction)
    (ht : t ∈ (validate_and_filter ts reg mn mx).1) :
    (t ∈ (ts.filter isValidTransaction).map setAmount) ∧
    (regionTruthy reg = true → decide (t.Region.getD "" = reg.getD "") = true) ∧
    (∀ m, mn = some m → decide (m ≤ t.Amount.getD 0) = true) ∧
    (∀ m, mx = some m → decide (t.Amount.getD 0 ≤ m) = true) := by
  revert ht
  simp only [validate_and_filter]
  cases hreg : regionTruthy reg <;> cases mn <;> cases mx <;>
    · intro ht
      simp only [Bool.false_eq_true, if_false, if_true, List.mem_filter] at ht
      simp_all

theorem vf_fixed (out : List Transaction) (reg : Option String)
    (mn mx : Option ℚ)
    (h1 : ∀ t ∈ out, isValidTransaction t = true)
    (h2 : ∀ t ∈ out, setAmount t = t)
    (h3 : regionTruthy reg = true →
      ∀ t ∈ out, decide (t.Region.getD "" = reg.getD "") = true)
    (h4 : ∀ m, mn = some m → ∀ t ∈ out, decide (m ≤ t.Amount.getD 0) = true)
    (h5 : ∀ m, mx = some m → ∀ t ∈ out, decide (t.Amount.getD 0 ≤ m) = true) :
    validate_and_filter out reg mn mx =
      (out, 0,
       { total_input := out.length, invalid := 0, filtered_by_region := 0,
         filtered_by_amount := 0, final_count := out.length }) := by
  have hfv : out.filter isValidTransaction = out := filter_eq_self_of_mem h1
  have hcv : out.countP (fun t => !isValidTransaction t) = 0 := by
    rw [List.countP_eq_zero]
    intro a ha
    simp [h1 a ha]
  have hmv : out.map setAmount = out := map_id_of_mem h2
  simp only [validate_and_filter, hfv, hcv, hmv]
  cases hreg : regionTruthy reg with
  | false =>
    cases mn with
    | none =>
      cases mx with
      | none => simp
      | some M => simp [filter_eq_self_of_mem (h5 M rfl)]
    | some m =>
      cases mx with
      | none => simp [filter_eq_self_of_mem (h4 m rfl)]
      | some M =>
        simp [filter_eq_self_of_mem (h4 m rfl), filter_eq_self_of_mem (h5 M rfl)]
  | true =>
    have hr3 := filter_eq_self_of_mem (h3 hreg)
    cases mn with
    | none =>
      cases mx with
      | none => simp [hr3]
      | some M => simp [hr3, filter_eq_self_of_mem (h5 M rfl)]
    | some m =>
      cases mx with
      | none => simp [hr3, filter_eq_self_of_mem (h4 m rfl)]
      | some M =>
        simp [hr3, filter_eq_self_of_mem (h4 m rfl), filter_eq_self_of_mem (h5 M rfl)]

/-- **C6.** `validate_and_filter` is idempotent: running it again on its
own admitted output, with the same region and amount parameters, returns
that output unchanged, with zero records rejected and zero removed by
either filter. -/
theorem claim_C6 (ts : List Transaction) (reg : Option String)
    (mn mx : Option ℚ) :
    validate_and_filter (validate_and_filter ts reg mn mx).1 reg mn mx =
      ((validate_and_filter ts reg mn mx).1, 0,
       { total_input := (validate_and_filter ts reg mn mx).1.length
         invalid := 0
         filtered_by_region := 0
         filtered_by_amount := 0
         final_count := (validate_and_filter ts reg mn mx).1.length }) := by
  refine vf_fixed _ reg mn mx ?_ ?_ ?_ ?_ ?_
  · intro t ht
    obtain ⟨hW, _, _, _⟩ := vf_mem_facts ts reg mn mx t ht
    obtain ⟨t0, ht0, rfl⟩ := List.mem_map.mp hW
    rw [isValid_setAmount]
    exact (List.mem_filter.mp ht0).2
  · intro t ht
    obtain ⟨hW, _, _, _⟩ := vf_mem_facts ts reg mn mx t ht
    obtain ⟨t0, _, rfl⟩ := List.mem_map.mp hW
    exact setAmount_idem t0
  · intro hr t ht
    exact (vf_mem_facts ts reg mn mx t ht).2.1 hr
  · intro m hm t ht
    exact (vf_mem_facts ts reg mn mx t ht).2.2.1 m hm
  · intro m hm t ht
    exact (vf_mem_facts ts reg mn mx t ht).2.2.2 m hm

/-! ## Facts about the aggregator -/

theorem mem_region_wise_sales (ts : List Transaction) (r : String)
    (st : RegionStat) (h : (r, st) ∈ region_wise_sales ts) :
    st = regionStatFor ts r := by
  unfold region_wise_sales at h
  by_cases hts : ts.isEmpty
  · rw [if_pos hts] at h
    exact absurd h (List.not_mem_nil _)
  · rw [if_neg hts, mem_pySort] at h
    obtain ⟨r0, _, heq⟩ := List.mem_map.mp h
    obtain ⟨h1, h2⟩ := Prod.mk.injEq .. |>.mp heq
    rw [← h2, h1]

/-- **C7 (amended).** Each region's reported percentage is
`round2(group_revenue / total_revenue * 100)` where the numerator is the
full-precision group sum but the denominator is `calculate_total_revenue`'s
value — the total already rounded to 2 decimal places — and 0 when that
rounded total is not positive.  (The claim as frozen asserts the
denominator is the full-precision running sum; the counterexample shows it
is the rounded total.) -/
theorem claim_C7 (ts : List Transaction) (r : String) (st : RegionStat)
    (h : (r, st) ∈ region_wise_sales ts) :
    st.percentage =
      pyRound2 (if 0 < calculate_total_revenue ts then
        groupSales keyRegion ts r / calculate_total_revenue ts * 100 else 0) := by
  rw [mem_region_wise_sales ts r st h]
  rfl

unseal Rat.add Rat.mul Rat.inv Rat.sub in
/-- Counterexample to **C7** as frozen: one transaction with unit price
0.333 in region `"North"`.  The full-precision total is 0.333, so the
claimed percentage is `0.333 / 0.333 * 100 = 100` (and rounding 100 for
reporting is still 100), but the code stores 100.91, because it divides by
the rounded total 0.33. -/
theorem claim_C7_counterexample :
    (region_wise_sales [sampleThirds]).map (fun p => (p.1, p.2.percentage)) =
      [("North", 10091 / 100)] ∧
    groupSales keyRegion [sampleThirds] "North" /
        (([sampleThirds].map txSales).sum) * 100 = 100 ∧
    pyRound2 100 = 100 ∧
    ((10091 : ℚ) / 100 ≠ 100) := by
  refine ⟨by decide, by decide, by decide, by decide⟩

unseal Rat.add Rat.mul Rat.inv Rat.sub in
/-- Witness for **C7 (amended)** at a concrete input: two regions with
revenues 300 and 100; the South percentage is `100 / 400 * 100 = 25`. -/
theorem claim_C7_witness :
    ("South", (⟨100, 1, 25⟩ : RegionStat)) ∈
      region_wise_sales [samplePct300, samplePct100] ∧
    (⟨100, 1, 25⟩ : RegionStat).percentage =
      pyRound2 (if 0 < calculate_total_revenue [samplePct300, samplePct100] then
        groupSales keyRegion [samplePct300, samplePct100] "South" /
          calculate_total_revenue [samplePct300, samplePct100] * 100 else 0) :=
  ⟨by decide, claim_C7 _ _ _ (by decide)⟩

theorem filter_pyInsert_pos {α : Type} (le : α → α → Bool) (p : α → Bool)
    (x : α) (hx : p x = true) (hc : ∀ y, p y = true → le x y = true) :
    ∀ l : List α, (pyInsert le x l).filter p = x :: l.filter p
  | [] => by simp [pyInsert, hx]
  | y :: ys => by
    simp only [pyInsert]
    split
    · simp [List.filter_cons, hx]
    · rename_i hxy
      have hpy : p y = false := by
        cases hpy : p y with
        | true => exact absurd (hc y hpy) hxy
        | false => rfl
      simp [List.filter_cons, hpy, filter_pyInsert_pos le p x hx hc ys]

theorem filter_pyInsert_neg {α : Type} (le : α → α → Bool) (p : α → Bool)
    (x : α) (hx : p x = false) :
    ∀ l : List α, (pyInsert le x l).filter p = l.filter p
  | [] => by simp [pyInsert, hx]
  | y :: ys => by
    simp only [pyInsert]
    split
    · simp [List.filter_cons, hx]
    · simp [List.filter_cons, filter_pyInsert_neg le p x hx ys]

/-- Stability of the insertion sort: when all elements satisfying `p` are
mutually tied under `le`, sorting does not disturb their relative order. -/
theorem filter_pySort {α : Type} (le : α → α → Bool) (p : α → Bool)
    (hpt : ∀ x y, p x = true → p y = true → le x y = true) :
    ∀ l : List α, (pySort le l).filter p = l.filter p
  | [] => rfl
  | x :: xs => by
    have hs : pySort le (x :: xs) = pyInsert le x (pySort le xs) := rfl
    rw [hs]
    cases hx : p x with
    | true =>
      rw [filter_pyInsert_pos le p x hx (fun y hy => hpt x y hx hy) (pySort le xs),
        filter_pySort le p hpt xs]
      simp [List.filter_cons, hx]
    | false =>
      rw [filter_pyInsert_neg le p x hx (pySort le xs), filter_pySort le p hpt xs]
      simp [List.filter_cons, hx]

theorem pair_sublist_of_getElem {α : Type} (l : List α) (i j : ℕ) (a b : α)
    (hij : i < j) (ha : l[i]? = some a) (hb : l[j]? = some b) :
    List.Sublist [a, b] l := by
  have ha1 : (l.take (i + 1))[i]? = some a := by
    rw [List.getElem?_take_of_lt (Nat.lt_succ_self i)]
    exact ha
  have hb1 : (l.drop (i + 1))[j - (i + 1)]? = some b := by
    rw [List.getElem?_drop]
    have hj : i + 1 + (j - (i + 1)) = j := by omega
    rw [hj]
    exact hb
  have happ : List.Sublist ([a] ++ [b]) (l.take (i + 1) ++ l.drop (i + 1)) :=
    List.Sublist.append (List.singleton_sublist.mpr (List.getElem?_mem ha1))
      (List.singleton_sublist.mpr (List.getElem?_mem hb1))
  rw [List.take_append_drop] at happ
  exact happ

/-- **C8.** `top_selling_products` returns at most `n` entries; each entry
is a product-name group carrying that group's summed quantity and its
summed revenue (rounded to 2 decimals for reporting); the entries are in
non-increasing order of summed quantity; and ties keep first-seen group
order: two returned entries with equal summed quantity occur in the same
order as their product names in the first-occurrence (dict insertion)
order of the grouping keys. -/
theorem claim_C8 (ts : List Transaction) (n : ℕ) :
    (top_selling_products ts n).length ≤ n ∧
    (top_selling_products ts n).Pairwise (fun a b => b.2.1 ≤ a.2.1) ∧
    (∀ e ∈ top_selling_products ts n,
      e.2.1 = groupQty ts e.1 ∧
      e.2.2 = pyRound2 (groupSales keyProduct ts e.1)) ∧
    (∀ (i j : ℕ) (a b : String × ℤ × ℚ), i < j →
      (top_selling_products ts n)[i]? = some a →
      (top_selling_products ts n)[j]? = some b →
      a.2.1 = b.2.1 →
      List.Sublist [a.1, b.1] (firstSeen (ts.map keyProduct))) := by
  by_cases hts : ts.isEmpty
  · simp [top_selling_products, hts]
  · unfold top_selling_products
    rw [if_neg hts]
    refine ⟨List.length_take_le n _, ?_, ?_, ?_⟩
    · refine List.Pairwise.sublist (List.take_sublist n _) ?_
      refine (pairwise_pySort _ ?_ ?_ _).imp ?_
      · intro a b c h1 h2
        rw [decide_eq_true_eq] at h1 h2 ⊢
        exact le_trans h2 h1
      · intro a b
        rcases le_total b.2.1 a.2.1 with h | h
        · exact Or.inl (decide_eq_true h)
        · exact Or.inr (decide_eq_true h)
      · intro a b hab
        exact of_decide_eq_true hab
    · intro e he
      have he1 := (List.take_sublist n _).mem he
      rw [mem_pySort] at he1
      obtain ⟨p, _, heq⟩ := List.mem_map.mp he1
      rw [← heq]
      exact ⟨rfl, rfl⟩
    · intro i j a b hij ha hb hq
      have hi' : (pySort (fun a b => decide (b.2.1 ≤ a.2.1))
          ((firstSeen (ts.map keyProduct)).map
            (fun p => (p, groupQty ts p,
              pyRound2 (groupSales keyProduct ts p)))))[i]? = some a := by
        by_cases hin : i < n
        · rw [List.getElem?_take_of_lt hin] at ha
          exact ha
        · exfalso
          have hnone : ((pySort (fun a b => decide (b.2.1 ≤ a.2.1))
              ((firstSeen (ts.map keyProduct)).map
                (fun p => (p, groupQty ts p,
                  pyRound2 (groupSales keyProduct ts p))))).take n)[i]? = none := by
            rw [List.getElem?_eq_none]
            have := List.length_take_le n (pySort (fun a b => decide (b.2.1 ≤ a.2.1))
              ((firstSeen (ts.map keyProduct)).map
                (fun p => (p, groupQty ts p,
                  pyRound2 (groupSales keyProduct ts p)))))
            omega
          rw [hnone] at ha
          exact Option.noConfusion ha
      have hj' : (pySort (fun a b => decide (b.2.1 ≤ a.2.1))
          ((firstSeen (ts.map keyProduct)).map
            (fun p => (p, groupQty ts p,
              pyRound2 (groupSales keyProduct ts p)))))[j]? = some b := by
        by_cases hjn : j < n
        · rw [List.getElem?_take_of_lt hjn] at hb
          exact hb
        · exfalso
          have hnone : ((pySort (fun a b => decide (b.2.1 ≤ a.2.1))
              ((firstSeen (ts.map keyProduct)).map
                (fun p => (p, groupQty ts p,
                  pyRound2 (groupSales keyProduct ts p))))).take n)[j]? = none := by
            rw [List.getElem?_eq_none]
            have := List.length_take_le n (pySort (fun a b => decide (b.2.1 ≤ a.2.1))
              ((firstSeen (ts.map keyProduct)).map
                (fun p => (p, groupQty ts p,
                  pyRound2 (groupSales keyProduct ts p)))))
            omega
          rw [hnone] at hb
          exact Option.noConfusion hb
      have hpair := pair_sublist_of_getElem _ i j a b hij hi' hj'
      have hstab := filter_pySort (fun a b : String × ℤ × ℚ => decide (b.2.1 ≤ a.2.1))
        (fun e => decide (e.2.1 = a.2.1))
        (fun x y hx hy => by
          rw [decide_eq_true_eq] at hx hy
          rw [decide_eq_true_eq, hx, hy])
        ((firstSeen (ts.map keyProduct)).map
          (fun p => (p, groupQty ts p, pyRound2 (groupSales keyProduct ts p))))
      have h1 := hpair.filter (fun e : String × ℤ × ℚ => decide (e.2.1 = a.2.1))
      rw [hstab] at h1
      have h2 : [a, b].filter (fun e : String × ℤ × ℚ => decide (e.2.1 = a.2.1)) =
          [a, b] := by
        simp [List.filter_cons, hq]
      rw [h2] at h1
      have h3 := h1.trans (List.filter_sublist _)
      have h4 := h3.map Prod.fst
      rw [List.map_map] at h4
      have h5 : (Prod.fst ∘ fun p : String => (p, groupQty ts p,
          pyRound2 (groupSales keyProduct ts p))) = fun p : String => p := rfl
      rw [h5, List.map_id'] at h4
      exact h4

/-! ## The peak-day tie-break -/

theorem foldl_pyMaxStep_facts {α β : Type} [LinearOrder β] (f : α → β) :
    ∀ (l : List α) (b : α),
      f b ≤ f (l.foldl (pyMaxStep f) b) ∧
      (∀ y ∈ l, f y ≤ f (l.foldl (pyMaxStep f) b)) ∧
      (l.foldl (pyMaxStep f) b = b ∨
        (l.foldl (pyMaxStep f) b ∈ l ∧ f b < f (l.foldl (pyMaxStep f) b)))
  | [], b => by simp
  | c :: rest, b => by
    have hfold : (c :: rest).foldl (pyMaxStep f) b =
        rest.foldl (pyMaxStep f) (pyMaxStep f b c) := rfl
    obtain ⟨ih1, ih2, ih3⟩ := foldl_pyMaxStep_facts f rest (pyMaxStep f b c)
    have hbb : f b ≤ f (pyMaxStep f b c) := by
      unfold pyMaxStep
      split
      · rename_i hlt
        exact le_of_lt hlt
      · exact le_refl _
    have hcb : f c ≤ f (pyMaxStep f b c) := by
      unfold pyMaxStep
      split
      · exact le_refl _
      · rename_i hlt
        exact le_of_not_lt hlt
    rw [hfold]
    refine ⟨le_trans hbb ih1, ?_, ?_⟩
    · intro y hy
      rcases List.mem_cons.mp hy with rfl | hy
      · exact le_trans hcb ih1
      · exact ih2 y hy
    · rcases ih3 with heq | ⟨hmem, hlt⟩
      · rw [heq]
        unfold pyMaxStep
        split
        · rename_i hlt
          exact Or.inr ⟨List.mem_cons_self c rest, hlt⟩
        · exact Or.inl rfl
      · exact Or.inr ⟨List.mem_cons_of_mem c hmem, lt_of_le_of_lt hbb hlt⟩

theorem foldl_pyMaxStep_first {α β γ : Type} [LinearOrder β] [LinearOrder γ]
    (f : α → β) (key : α → γ) :
    ∀ (l : List α) (b : α),
      (b :: l).Pairwise (fun a c => key a < key c) →
      ∀ z ∈ b :: l, f z = f (l.foldl (pyMaxStep f) b) →
        key (l.foldl (pyMaxStep f) b) ≤ key z
  | [], b => by
    intro _ z hz hfz
    rcases List.mem_cons.mp hz with rfl | hz
    · exact le_refl _
    · exact absurd hz (List.not_mem_nil z)
  | c :: rest, b => by
    intro hsort z hz hfz
    have hfold : (c :: rest).foldl (pyMaxStep f) b =
        rest.foldl (pyMaxStep f) (pyMaxStep f b c) := rfl
    rw [hfold] at hfz ⊢
    have hbc : key b < key c :=
      (List.pairwise_cons.mp hsort).1 c (List.mem_cons_self c rest)
    have hbrest : ∀ a ∈ rest, key b < key a := fun a ha =>
      (List.pairwise_cons.mp hsort).1 a (List.mem_cons_of_mem c ha)
    have hcrest := List.pairwise_cons.mp (List.pairwise_cons.mp hsort).2
    have hsort2 : (pyMaxStep f b c :: rest).Pairwise (fun a c => key a < key c) := by
      refine List.pairwise_cons.mpr ⟨?_, hcrest.2⟩
      intro a ha
      unfold pyMaxStep
      split
      · exact hcrest.1 a ha
      · exact hbrest a ha
    obtain ⟨ih1, ih2, ih3⟩ := foldl_pyMaxStep_facts f rest (pyMaxStep f b c)
    set R := rest.foldl (pyMaxStep f) (pyMaxStep f b c) with hR
    rcases List.mem_cons.mp hz with hzb | hz
    · -- z = b
      rw [hzb] at hfz ⊢
      by_cases hlt : f b < f c
      · have hc : pyMaxStep f b c = c := if_pos hlt
        rw [hc] at ih1
        rw [← hfz] at ih1
        exact absurd (lt_of_lt_of_le hlt ih1) (lt_irrefl _)
      · have hb : pyMaxStep f b c = b := if_neg hlt
        refine foldl_pyMaxStep_first f key rest (pyMaxStep f b c) hsort2 b ?_ hfz
        rw [hb]
        exact List.mem_cons_self _ _
    · rcases List.mem_cons.mp hz with hzc | hz
      · -- z = c
        rw [hzc] at hfz ⊢
        by_cases hlt : f b < f c
        · have hc : pyMaxStep f b c = c := if_pos hlt
          refine foldl_pyMaxStep_first f key rest (pyMaxStep f b c) hsort2 c ?_ hfz
          rw [hc]
          exact List.mem_cons_self _ _
        · have hb : pyMaxStep f b c = b := if_neg hlt
          rcases ih3 with heq | ⟨_, hlt2⟩
          · rw [heq, hb]
            exact le_of_lt hbc
          · rw [hb] at hlt2
            have hcb : f c ≤ f b := le_of_not_lt hlt
            rw [hfz] at hcb
            exact absurd (lt_of_le_of_lt hcb hlt2) (lt_irrefl _)
      · -- z ∈ rest
        exact foldl_pyMaxStep_first f key rest (pyMaxStep f b c) hsort2 z
          (List.mem_cons_of_mem _ hz) hfz

theorem lexLe_iff_not_lex : ∀ as bs : List Char,
    lexLe as bs = true ↔ ¬ List.Lex (· < ·) bs as
  | [], bs => iff_of_true rfl (fun h => by cases h)
  | a :: as, [] => iff_of_false (by simp [lexLe]) (fun h => h List.Lex.nil)
  | a :: as, b :: bs => by
    simp only [lexLe]
    by_cases h1 : a < b
    · rw [if_pos h1]
      refine iff_of_true rfl ?_
      intro h
      cases h with
      | cons h2 => exact absurd h1 (lt_irrefl _)
      | rel h2 => exact absurd h2 (asymm h1)
    · rw [if_neg h1]
      by_cases h2 : b < a
      · rw [if_pos h2]
        refine iff_of_false (by simp) ?_
        intro h
        exact h (List.Lex.rel h2)
      · rw [if_neg h2]
        have hab : a = b := le_antisymm (le_of_not_lt h2) (le_of_not_lt h1)
        subst hab
        rw [lexLe_iff_not_lex as bs]
        constructor
        · intro hn h
          cases h with
          | cons h3 => exact hn h3
          | rel h3 => exact absurd h3 (lt_irrefl _)
        · intro hn h
          exact hn (List.Lex.cons h)

theorem pyStrLe_iff_le (a b : String) : pyStrLe a b = true ↔ a ≤ b := by
  rw [String.le_iff_toList_le, ← not_lt]
  exact lexLe_iff_not_lex a.data b.data

theorem daily_sales_trend_sorted (ts : List Transaction) :
    (daily_sales_trend ts).Pairwise (fun a b => a.1 < b.1) := by
  unfold daily_sales_trend
  by_cases hts : ts.isEmpty
  · rw [if_pos hts]
    exact List.Pairwise.nil
  · rw [if_neg hts]
    have hle : (pySort (fun a b => pyStrLe a.1 b.1)
        ((firstSeen (ts.map keyDate)).map
          (fun d => (d, dayStatFor ts d)))).Pairwise
        (fun a b : String × DayStat => a.1 ≤ b.1) := by
      refine (pairwise_pySort _ ?_ ?_ _).imp ?_
      · intro a b c h1 h2
        rw [pyStrLe_iff_le] at h1 h2 ⊢
        exact le_trans h1 h2
      · intro a b
        rcases le_total a.1 b.1 with h | h
        · exact Or.inl ((pyStrLe_iff_le _ _).mpr h)
        · exact Or.inr ((pyStrLe_iff_le _ _).mpr h)
      · intro a b hab
        exact (pyStrLe_iff_le _ _).mp hab
    have hperm : List.Perm
        (List.map Prod.fst (pySort (fun a b => pyStrLe a.1 b.1)
          ((firstSeen (ts.map keyDate)).map (fun d => (d, dayStatFor ts d)))))
        (firstSeen (ts.map keyDate)) := by
      have h1 := (pySort_perm (fun a b : String × DayStat => pyStrLe a.1 b.1)
        ((firstSeen (ts.map keyDate)).map (fun d => (d, dayStatFor ts d)))).map
        Prod.fst
      rw [List.map_map] at h1
      have h2 : (Prod.fst ∘ fun d => (d, dayStatFor ts d)) = fun d : String => d :=
        rfl
      rw [h2, List.map_id'] at h1
      exact h1
    have hnd : (List.map Prod.fst (pySort (fun a b => pyStrLe a.1 b.1)
        ((firstSeen (ts.map keyDate)).map
          (fun d => (d, dayStatFor ts d))))).Nodup :=
      hperm.nodup_iff.mpr (nodup_firstSeen _)
    have hne : (pySort (fun a b => pyStrLe a.1 b.1)
        ((firstSeen (ts.map keyDate)).map
          (fun d => (d, dayStatFor ts d)))).Pairwise
        (fun a b : String × DayStat => a.1 ≠ b.1) := by
      rw [List.Nodup, List.pairwise_map] at hnd
      exact hnd
    exact (hle.and hne).imp (fun h => lt_of_le_of_ne h.1 h.2)

/-- **C10.** `find_peak_sales_day` returns a date achieving the maximum
daily revenue, and when several dates tie for that maximum it returns the
lexicographically smallest of them: `daily_sales_trend` lists dates in
ascending order and Python's `max` keeps the first maximal entry it
meets. -/
theorem claim_C10 (ts : List Transaction) (d : String) (r : ℚ) (c : ℕ)
    (h : find_peak_sales_day ts = (some d, r, c)) :
    (∃ st : DayStat, (d, st) ∈ daily_sales_trend ts ∧ st.revenue = r ∧
      st.transaction_count = c) ∧
    (∀ p ∈ daily_sales_trend ts, p.2.revenue ≤ r) ∧
    (∀ p ∈ daily_sales_trend ts, p.2.revenue = r → d ≤ p.1) := by
  by_cases hts : ts.isEmpty
  · rw [find_peak_sales_day, if_pos hts] at h
    exact absurd (congrArg Prod.fst h) (by simp)
  · rw [find_peak_sales_day, if_neg hts] at h
    cases htr : daily_sales_trend ts with
    | nil =>
      rw [htr] at h
      exact absurd (congrArg Prod.fst h) (by simp [pyMaxBy])
    | cons e rest =>
      rw [htr] at h
      simp only [pyMaxBy] at h
      set E := rest.foldl (pyMaxStep (fun e : String × DayStat => e.2.revenue)) e
        with hE
      have hd : E.1 = d := Option.some.inj (congrArg Prod.fst h)
      have hrev : E.2.revenue = r := by
        have := congrArg (fun q : Option String × ℚ × ℕ => q.2.1) h
        exact this
      have hcnt : E.2.transaction_count = c := by
        have := congrArg (fun q : Option String × ℚ × ℕ => q.2.2) h
        exact this
      obtain ⟨hf1, hf2, hf3⟩ :=
        foldl_pyMaxStep_facts (fun e : String × DayStat => e.2.revenue) rest e
      have hEmem : E ∈ e :: rest := by
        rcases hf3 with heq | ⟨hmem, _⟩
        · rw [hE, heq]
          exact List.mem_cons_self _ _
        · rw [hE]
          exact List.mem_cons_of_mem _ hmem
      have hsorted := daily_sales_trend_sorted ts
      rw [htr] at hsorted
      refine ⟨⟨E.2, ?_, hrev, hcnt⟩, ?_, ?_⟩
      · rw [← hd]
        have heta : (E.1, E.2) = E := rfl
        rw [heta]
        exact hEmem
      · intro p hp
        rw [← hrev]
        rcases List.mem_cons.mp hp with rfl | hp
        · exact hf1
        · exact hf2 p hp
      · intro p hp hpr
        have hfz : p.2.revenue = E.2.revenue := by rw [hpr, hrev]
        have hfirst := foldl_pyMaxStep_first
          (fun e : String × DayStat => e.2.revenue) Prod.fst rest e hsorted p hp hfz
        rw [← hd]
        exact hfirst

unseal Rat.add Rat.mul Rat.inv Rat.sub in
/-- Witness for **C10** at a concrete input: two dates tie at revenue 100
and the input lists the later date first, yet the peak day returned is the
lexicographically smaller `"2024-12-01"`. -/
theorem claim_C10_witness :
    find_peak_sales_day [sampleDay2, sampleDay1] = (some "2024-12-01", 100, 1) ∧
    ((∃ st : DayStat,
        ("2024-12-01", st) ∈ daily_sales_trend [sampleDay2, sampleDay1] ∧
        st.revenue = 100 ∧ st.transaction_count = 1) ∧
      (∀ p ∈ daily_sales_trend [sampleDay2, sampleDay1], p.2.revenue ≤ 100) ∧
      (∀ p ∈ daily_sales_trend [sampleDay2, sampleDay1],
        p.2.revenue = 100 → "2024-12-01" ≤ p.1)) :=
  ⟨by decide, claim_C10 [sampleDay2, sampleDay1] "2024-12-01" 100 1 (by decide)⟩

/-! ## The heap model: in-place update and aliasing -/

theorem readS_set (σ : List Transaction) (k : ℕ) (v : Transaction) (i : ℕ) :
    readS (σ.set k v) i =
      if k = i ∧ k < σ.length then v else readS σ i := by
  unfold readS
  rw [List.getElem?_set]
  by_cases h1 : k = i
  · subst h1
    by_cases h2 : k < σ.length
    · simp [h2]
    · have hnone : σ[k]? = none := by
        rw [List.getElem?_eq_none]
        omega
      simp [h2, hnone]
  · simp [h1]

theorem readS_amountPass : ∀ (l : List ℕ) (σ : List Transaction) (i : ℕ),
    readS (amountPass σ l) i =
      if i ∈ l ∧ i < σ.length then setAmount (readS σ i) else readS σ i
  | [], σ, i => by simp [amountPass]
  | k :: l, σ, i => by
    have hstep : amountPass σ (k :: l) =
        amountPass (σ.set k (setAmount (readS σ k))) l := rfl
    rw [hstep, readS_amountPass l _ i, List.length_set, readS_set]
    by_cases hki : k = i
    · subst hki
      by_cases hk : k < σ.length
      · by_cases hkl : k ∈ l
        · simp [hkl, hk, setAmount_idem, List.mem_cons]
        · simp [hkl, hk, List.mem_cons]
      · simp [hk, List.mem_cons]
    · by_cases hil : i ∈ l
      · by_cases hlen : i < σ.length
        · simp [hil, hlen, hki, List.mem_cons]
        · simp [hil, hlen, hki, List.mem_cons]
      · have hne : i ≠ k := fun h => hki h.symm
        simp [hil, hki, hne, List.mem_cons]

/-- **C9.** In the heap model of `validate_and_filter` — dicts are store
cells and the caller's list holds references — the call mutates in place:
after it, every admitted cell referenced by the caller's list carries an
`Amount` equal to `Quantity * UnitPrice`, cells referenced only by
rejected entries are untouched, and the returned list consists of
references drawn from the caller's own list (aliases of the same objects,
not copies), so a later write through either list is a write to the same
cell. -/
theorem claim_C9 (σ : List Transaction) (refs : List ℕ) (reg : Option String)
    (mn mx : Option ℚ) (href : ∀ i ∈ refs, i < σ.length) :
    (∀ i ∈ refs, isValidTransaction (readS σ i) = true →
      readS (validate_and_filter_heap σ refs reg mn mx).2.2 i =
        setAmount (readS σ i) ∧
      (readS (validate_and_filter_heap σ refs reg mn mx).2.2 i).Amount =
        some (((readS σ i).Quantity.getD 0 : ℚ) * (readS σ i).UnitPrice.getD 0)) ∧
    (∀ i ∈ refs, isValidTransaction (readS σ i) = false →
      readS (validate_and_filter_heap σ refs reg mn mx).2.2 i = readS σ i) ∧
    (∀ i ∈ (validate_and_filter_heap σ refs reg mn mx).1, i ∈ refs) ∧
    (∀ j, j ∉ refs →
      readS (validate_and_filter_heap σ refs reg mn mx).2.2 j = readS σ j) := by
  have hσ2 : (validate_and_filter_heap σ refs reg mn mx).2.2 =
      amountPass σ (refs.filter (fun i => isValidTransaction (readS σ i))) := rfl
  refine ⟨?_, ?_, ?_, ?_⟩
  · intro i hi hval
    have hmem : i ∈ refs.filter (fun i => isValidTransaction (readS σ i)) :=
      List.mem_filter.mpr ⟨hi, hval⟩
    have heq : readS (validate_and_filter_heap σ refs reg mn mx).2.2 i =
        setAmount (readS σ i) := by
      rw [hσ2, readS_amountPass]
      rw [if_pos ⟨hmem, href i hi⟩]
    exact ⟨heq, by rw [heq]; rfl⟩
  · intro i hi hval
    rw [hσ2, readS_amountPass, if_neg]
    intro ⟨hmem, _⟩
    have := (List.mem_filter.mp hmem).2
    rw [hval] at this
    exact Bool.false_ne_true this
  · intro i hi
    revert hi
    simp only [validate_and_filter_heap]
    cases regionTruthy reg <;> cases mn <;> cases mx <;>
      · intro hi
        simp only [Bool.false_eq_true, if_false, if_true, List.mem_filter] at hi
        simp_all [List.mem_filter]
  · intro j hj
    rw [hσ2, readS_amountPass, if_neg]
    intro ⟨hmem, _⟩
    exact hj (List.mem_filter.mp hmem).1

unseal Rat.add Rat.mul Rat.inv Rat.sub in
/-- Witness for **C9** at a concrete input: a one-cell store holding a
valid transaction, referenced by the caller's list `[0]`. -/
theorem claim_C9_witness :
    (∀ i ∈ [0], i < [sampleNorth].length) ∧
    ((∀ i ∈ [0], isValidTransaction (readS [sampleNorth] i) = true →
      readS (validate_and_filter_heap [sampleNorth] [0] none none none).2.2 i =
        setAmount (readS [sampleNorth] i) ∧
      (readS (validate_and_filter_heap [sampleNorth] [0] none none none).2.2 i).Amount =
        some (((readS [sampleNorth] i).Quantity.getD 0 : ℚ) *
          (readS [sampleNorth] i).UnitPrice.getD 0)) ∧
    (∀ i ∈ [0], isValidTransaction (readS [sampleNorth] i) = false →
      readS (validate_and_filter_heap [sampleNorth] [0] none none none).2.2 i =
        readS [sampleNorth] i) ∧
    (∀ i ∈ (validate_and_filter_heap [sampleNorth] [0] none none none).1, i ∈ [0]) ∧
    (∀ j, j ∉ [0] →
      readS (validate_and_filter_heap [sampleNorth] [0] none none none).2.2 j =
        readS [sampleNorth] j)) :=
  ⟨by decide, claim_C9 [sampleNorth] [0] none none none (by decide)⟩
